import Mathlib

/-!
Shallow embedding of the consensus and state-transition core of the dex
repository (packages pkg/dex and pkg/consensus), together with proofs
settling the claims about it.

Conventions used throughout:

* Go machine integers (uint64, uint8) are modelled as Nat.  All arithmetic
  on balances and quantities in the embedded code paths is guarded in the
  source (underflow checks before subtraction), so no wrap-around is
  reachable on the states considered; where a conversion through float64
  occurs (placeOrder's sell quantity) the embedding is exact on every input
  used in this file (products below 2^53) and this is noted at the
  definition.
* Byte strings are List Nat.
* Go maps are embedded as functions into Option (point updates are function
  overrides), except the account table of the dex state, which is an
  association list so that sums over all accounts can be stated.
* Panics (explicit panic calls, nil dereferences, out-of-range slice
  indexing, indexing a slice of an empty slice) are modelled by Option:
  a function that can panic returns none in exactly those situations.
* Serialization (gob, rlp) and cryptography (SHA3, BLS threshold
  signatures) are external libraries, not code of this repository.  They
  are modelled as parameter functions collected in environment structures
  (Env, CEnv); every theorem quantifies over them.
-/

namespace DexSpec

abbrev Bytes := List Nat
abbrev Addr := Nat
abbrev PK := Nat
abbrev TokenID := Nat
abbrev Hash := Nat
abbrev Sig := Nat

/-! ## MarketSymbol encoding (src/pkg/dex/state.go, Encode / Decode) -/

/-- MarketSymbol is the symbol of a trading pair (state.go). -/
structure MarketSymbol where
  Base : TokenID
  Quote : TokenID
deriving DecidableEq

/-- The 8 little-endian bytes binary.LittleEndian.PutUint64 writes. -/
def putUint64LE (n : Nat) : Bytes :=
  [n % 256, n / 256 % 256, n / 65536 % 256, n / 16777216 % 256,
   n / 4294967296 % 256, n / 1099511627776 % 256,
   n / 281474976710656 % 256, n / 72057594037927936 % 256]

/-- binary.LittleEndian.Uint64: reads the first 8 bytes of the slice. -/
def uint64LE (b : Bytes) : Nat :=
  b.getD 0 0 + 256 * b.getD 1 0 + 65536 * b.getD 2 0 + 16777216 * b.getD 3 0 +
  4294967296 * b.getD 4 0 + 1099511627776 * b.getD 5 0 +
  281474976710656 * b.getD 6 0 + 72057594037927936 * b.getD 7 0

/-- Encode writes LE64(Quote) into a fresh 64-byte buffer, LE64(Base) into a
second one, and concatenates them (state.go Encode): 128 bytes total. -/
def MarketSymbol.Encode (m : MarketSymbol) : Bytes :=
  (putUint64LE m.Quote ++ List.replicate 56 0) ++
  (putUint64LE m.Base ++ List.replicate 56 0)

/-- Error type of MarketSymbol.Decode: the only error the source returns is
the length mismatch (fmt.Errorf on len != 128). -/
inductive MsDecodeErr where
  | lengthErr (got : Nat)
deriving DecidableEq

/-- Decode (state.go): requires exactly 128 bytes, reads Quote from the
first 64-byte half and Base from the second. -/
def MarketSymbol.Decode (b : Bytes) : Except MsDecodeErr MarketSymbol :=
  if b.length ≠ 128 then .error (.lengthErr b.length)
  else .ok { Quote := uint64LE (b.take 64), Base := uint64LE (b.drop 64) }

/-! ## Dex data model (src/pkg/dex) -/

/-- TokenInfo (symbol, decimals, total units). -/
structure TokenInfo where
  Symbol : String
  Decimals : Nat
  TotalUnits : Nat
deriving DecidableEq

/-- Token: registry index plus embedded TokenInfo. -/
structure Token where
  ID : TokenID
  info : TokenInfo
deriving DecidableEq

/-- BNBInfo (state.go): the native token registered at genesis. -/
def BNBInfo : TokenInfo :=
  { Symbol := "BNB", Decimals := 8, TotalUnits := 200000000 * 100000000 }

/-- Balance of one token in one account. -/
structure Balance where
  Available : Nat
  Pending : Nat
deriving DecidableEq

/-- Account: public key, per-token balance map, nonce vector.  The balance
map is a Go map (function into Option). -/
structure Account where
  PK : PK
  Balances : TokenID → Option Balance
  NonceVec : List Nat

/-- matching.Order is an external package; the transition only ever stores
its zero value (placeOrder builds PendingOrder with matching.Order{}), so a
minimal record with a zero value suffices. -/
structure MOrder where
  SellSide : Bool
  Quant : Nat
  Price : Nat
deriving DecidableEq

/-- The zero value matching.Order{}. -/
def MOrder.zero : MOrder := { SellSide := false, Quant := 0, Price := 0 }

/-- PendingOrder: owner address plus the order. -/
structure PendingOrder where
  Owner : Addr
  Order : MOrder
deriving DecidableEq

/-- orderExpiration (state.go): order id and owner, indexed per round. -/
structure OrderExpiration where
  ID : Nat
  Owner : Addr
deriving DecidableEq

/-- Observable content of the dex state: the account table (an association
list keyed by address, so that totals over all accounts can be summed),
the token registry, the pending orders per market, and the per-round order
expiration lists.  In the source these live in a Merkle trie behind typed
paths; the trie itself is an external authenticated store. -/
structure DexState where
  accounts : List (Addr × Account)
  tokens : List Token
  pendingOrders : MarketSymbol → List PendingOrder
  orderExpirations : Nat → List OrderExpiration

/-- Point lookup in the account table (first matching key, as a map read). -/
def lookupAccount (l : List (Addr × Account)) (a : Addr) : Option Account :=
  (l.find? (fun p => p.1 = a)).map (fun p => p.2)

/-- Map write: replace the (first) binding of the key, or append a new
binding.  This is the embedding of an assignment to a Go map. -/
def updateAccountList : List (Addr × Account) → Addr → Account → List (Addr × Account)
  | [], a, acc => [(a, acc)]
  | (k, v) :: rest, a, acc =>
      if k = a then (k, acc) :: rest else (k, v) :: updateAccountList rest a acc

/-- Transaction type tags (src/pkg/dex, txn definitions). -/
inductive TxnType where
  | PlaceOrder
  | CancelOrder
  | IssueToken
  | SendToken
  | FreezeToken
  | BurnToken
deriving DecidableEq

/-- Wire transaction (type tag, opaque payload, nonce slot, owner).  The
signature bytes are not carried: signature checking is abstracted into the
environment. -/
structure Txn where
  T : TxnType
  Data : Bytes
  NonceIdx : Nat
  NonceValue : Nat
  Owner : Addr
deriving DecidableEq

/-- PlaceOrderTxn payload. -/
structure PlaceOrderTxn where
  SellSide : Bool
  Quant : Nat
  Price : Nat
  ExpireRound : Nat
  Market : MarketSymbol
deriving DecidableEq

/-- SendTokenTxn payload. -/
structure SendTokenTxn where
  TokenID : TokenID
  To : PK
  Quant : Nat
deriving DecidableEq

/-- Environment of external collaborators of the dex transition: the
address derivation (a hash of the public key), the gob decoders for the
wire transaction and the two payload kinds, and signature verification.
Every theorem about the transition quantifies over this environment. -/
structure Env where
  addrOfPK : PK → Addr
  decodeTxn : Bytes → Option Txn
  decodePlaceOrder : Bytes → Option PlaceOrderTxn
  decodeSendToken : Bytes → Option SendTokenTxn
  sigOk : Txn → Bool

/-- Token info lookup (tokenCache.Info): the registered token with the
given id, if any. -/
def DexState.tokenInfo (s : DexState) (id : TokenID) : Option TokenInfo :=
  (s.tokens.find? (fun t => t.ID = id)).map (fun t => t.info)

/-- UpdateAccount (state.go): writes the account at the address derived
from its public key. -/
def DexState.UpdateAccount (E : Env) (s : DexState) (acc : Account) : DexState :=
  { s with accounts := updateAccountList s.accounts (E.addrOfPK acc.PK) acc }

/-- Modelled from the spec: UpdatePendingOrder is called by
Transition.placeOrder (src/unnamed/part_000) but its definition is not
under src/.  Per the spec it appends a PendingOrder entry for the market
(the remove argument is nil at this call site and is not modelled). -/
def DexState.UpdatePendingOrder (s : DexState) (m : MarketSymbol) (add : PendingOrder) : DexState :=
  { s with pendingOrders := fun m' =>
      if m' = m then s.pendingOrders m' ++ [add] else s.pendingOrders m' }

/-- The token list built by CreateGenesisState: BNB with id 0, then the
additional tokens with ids 1, 2, ... in order. -/
def genesisTokens (additional : List TokenInfo) : List Token :=
  Token.mk 0 BNBInfo :: additional.enum.map (fun p => Token.mk (p.1 + 1) p.2)

/-- The balance map a genesis recipient receives: for each registered token
an Available balance of TotalUnits / numRecipients (Go integer division),
assigned in registry order (later assignments override). -/
def genesisBalances (tokens : List Token) (n : Nat) : TokenID → Option Balance :=
  tokens.foldl
    (fun f t => fun id =>
      if id = t.ID then some ⟨t.info.TotalUnits / n, 0⟩ else f id)
    (fun _ => none)

/-- CreateGenesisState (state.go): registers BNB plus the additional
tokens, then gives every recipient an account holding
TotalUnits / numRecipients of each token. -/
def CreateGenesisState (E : Env) (recipients : List PK) (additional : List TokenInfo) : DexState :=
  let tokens := genesisTokens additional
  let s0 : DexState :=
    { accounts := [], tokens := tokens,
      pendingOrders := fun _ => [], orderExpirations := fun _ => [] }
  recipients.foldl
    (fun s pk =>
      DexState.UpdateAccount E s
        { PK := pk, Balances := genesisBalances tokens recipients.length, NonceVec := [] })
    s0

/-! ## Transition (src/unnamed/part_000) -/

/-- A state transition under construction: the staged state and the list of
successfully recorded transaction byte strings. -/
structure Transition where
  state : DexState
  txns : List Bytes

/-- Txns (part_000): the recorded transactions. -/
def Transition.Txns (t : Transition) : List Bytes := t.txns

/-- Modelled from the spec: validateSigAndNonce is called by
Transition.Record (src/unnamed/part_000) but its definition is not under
src/; only the related validateNonce (src/pkg/dex/rpc_server.go), whose
nonce logic is commented out, is.  Following spec section 4.3 and the
commented-out body of validateNonce: the bytes must decode, the owner
account must exist, the signature must verify; a slot index beyond the
nonce vector implicitly holds 0; a nonce value below the current slot
counter is invalid, one above it is valid but not ready, an equal one is
valid and ready.  Returns (txn, account, ready, valid). -/
def validateSigAndNonce (E : Env) (s : DexState) (b : Bytes) :
    Option Txn × Option Account × Bool × Bool :=
  match E.decodeTxn b with
  | none => (none, none, false, false)
  | some txn =>
    match lookupAccount s.accounts txn.Owner with
    | none => (some txn, none, false, false)
    | some acc =>
      if E.sigOk txn then
        let cur := acc.NonceVec.getD txn.NonceIdx 0
        if txn.NonceValue < cur then (some txn, some acc, false, false)
        else if cur < txn.NonceValue then (some txn, some acc, false, true)
        else (some txn, some acc, true, true)
      else (some txn, some acc, false, false)

/-- The sell quantity placeOrder reserves on the buy side (part_000):
the source computes uint64(float64(txn.Quant) * txn.Price), a plain
product with no rescaling by the price decimals.  The float64 round trip
is exact whenever the product is below 2^53, which holds for every input
this file evaluates it on, so the embedding is the exact product. -/
def sellQuantCode (quant price : Nat) : Nat := quant * price

/-- placeOrder (part_000).  Fails (none) when the market's base or quote
token is unregistered, when the owner has no balance entry for the sell
token, or when Available <= sellQuant (note: a strict surplus is required).
On success it moves sellQuant from Available to Pending, writes the account
back, and appends a PendingOrder carrying the zero matching.Order.  The
transaction's ExpireRound is not consulted and no order expiration is
recorded. -/
def Transition.placeOrder (E : Env) (t : Transition) (owner : Account)
    (txn : PlaceOrderTxn) : Option Transition :=
  match t.state.tokenInfo txn.Market.Base with
  | none => none
  | some _ =>
    match t.state.tokenInfo txn.Market.Quote with
    | none => none
    | some _ =>
      let sellQuant := if txn.SellSide then txn.Quant else sellQuantCode txn.Quant txn.Price
      let sell := if txn.SellSide then txn.Market.Base else txn.Market.Quote
      match owner.Balances sell with
      | none => none
      | some sb =>
        if sb.Available ≤ sellQuant then none
        else
          let owner' : Account :=
            { owner with Balances := fun id =>
                if id = sell then (some ⟨sb.Available - sellQuant, sb.Pending + sellQuant⟩)
                else owner.Balances id }
          let s1 := DexState.UpdateAccount E t.state owner'
          let add : PendingOrder := { Owner := E.addrOfPK owner.PK, Order := MOrder.zero }
          some { t with state := s1.UpdatePendingOrder txn.Market add }

/-- sendToken (part_000).  Fails (none) on zero quantity, missing sender
balance entry, Available < Quant, or a recipient whose account is already
stored: the source declares `var toAcc *Account` and gob-decodes the
stored bytes with `dec.Decode(toAcc)` — decoding into a nil pointer
always errors, so that branch returns false before any write (self-sends
included, since the sender is stored).  Only a send to an absent
recipient succeeds: a fresh account is created, credited and written
back, then the debited sender is written back. -/
def Transition.sendToken (E : Env) (t : Transition) (owner : Account)
    (txn : SendTokenTxn) : Option Transition :=
  if txn.Quant = 0 then none
  else
    match owner.Balances txn.TokenID with
    | none => none
    | some b =>
      if b.Available < txn.Quant then none
      else
        let toAddr := E.addrOfPK txn.To
        match lookupAccount t.state.accounts toAddr with
        | some _ => none
        | none =>
          let toAcc : Account := { PK := txn.To, Balances := fun _ => none, NonceVec := [] }
          let owner' : Account :=
            { owner with Balances := fun id =>
                if id = txn.TokenID then (some ⟨b.Available - txn.Quant, b.Pending⟩)
                else owner.Balances id }
          let toBal := (toAcc.Balances txn.TokenID).getD { Available := 0, Pending := 0 }
          let toAcc' : Account :=
            { toAcc with Balances := fun id =>
                if id = txn.TokenID then (some ⟨toBal.Available + txn.Quant, toBal.Pending⟩)
                else toAcc.Balances id }
          let s1 := DexState.UpdateAccount E t.state toAcc'
          some { t with state := DexState.UpdateAccount E s1 owner' }

/-- Record (part_000).  Returns none where the source panics (CancelOrder,
CreateToken/IssueToken, unknown transaction types).  Note that the naked
"return" statements after a failed payload decode or a failed
placeOrder/sendToken return the named result values (valid=true,
success=false), and that no mutation precedes a failing return. -/
def Transition.Record (E : Env) (t : Transition) (b : Bytes) :
    Option (Transition × Bool × Bool) :=
  match validateSigAndNonce E t.state b with
  | (_, _, _, false) => some (t, false, false)
  | (some txn, some acc, ready, true) =>
    if ready then
      match txn.T with
      | .PlaceOrder =>
        match E.decodePlaceOrder txn.Data with
        | none => some (t, true, false)
        | some p =>
          match t.placeOrder E acc p with
          | none => some (t, true, false)
          | some t' => some ({ t' with txns := t'.txns ++ [b] }, true, true)
      | .CancelOrder => none
      | .IssueToken => none
      | .SendToken =>
        match E.decodeSendToken txn.Data with
        | none => some (t, true, false)
        | some st =>
          match t.sendToken E acc st with
          | none => some (t, true, false)
          | some t' => some ({ t' with txns := t'.txns ++ [b] }, true, true)
      | .FreezeToken => none
      | .BurnToken => none
    else some (t, true, false)
  | (_, _, _, true) => some (t, false, false)

/-- One step of recording a batch: the transition after Record, where a
panic (none) leaves the transition as it was (nothing was mutated before
any panic in the source). -/
def recordStep (E : Env) (t : Transition) (b : Bytes) : Transition :=
  match Transition.Record E t b with
  | some (t', _, _) => t'
  | none => t

/-- Record a whole batch in order. -/
def recordAll (E : Env) (t : Transition) (bs : List Bytes) : Transition :=
  bs.foldl (recordStep E) t

/-- Available + Pending an account holds of a token. -/
def balOf (acc : Account) (id : TokenID) : Nat :=
  match acc.Balances id with
  | none => 0
  | some b => b.Available + b.Pending

/-- Sum of Available + Pending over all accounts of the table. -/
def sumTok (l : List (Addr × Account)) (id : TokenID) : Nat :=
  (l.map (fun p => balOf p.2 id)).sum

/-- Sum of Available + Pending over all accounts of the state. -/
def DexState.sumTok (s : DexState) (id : TokenID) : Nat :=
  DexSpec.sumTok s.accounts id

/-- Key consistency of the account table: every account is stored at the
address derived from its public key.  CreateGenesisState establishes this
and every write path of the transition preserves it (all writes go through
UpdateAccount, which keys by the account's own public key). -/
def Wf (E : Env) (s : DexState) : Prop :=
  ∀ p ∈ s.accounts, E.addrOfPK p.2.PK = p.1

/-! ## Consensus chain (src/pkg/consensus/chain.go) -/

/-- The committed state a transition yields (Transition.Commit): its
observable content is the staged state. -/
def Transition.CommitState (t : Transition) : DexState := t.state

/-- State.Transition: opens a fresh transition on the committed state.
The round argument of the source is not consulted by any embedded code
path of this transition version. -/
def DexState.toTransition (s : DexState) : Transition := { state := s, txns := [] }

/-- Block (consensus).  NotarizationSig is 0 until assigned. -/
structure Block where
  Owner : Addr
  Round : Nat
  BlockProposal : Hash
  PrevBlock : Hash
  SysTxns : List Bytes
  StateRoot : Hash
  NotarizationSig : Sig
deriving DecidableEq

/-- BlockProposal (consensus). -/
structure BlockProposal where
  Round : Nat
  PrevBlock : Hash
  Owner : Addr
  SysTxns : List Bytes
  Data : Bytes
  OwnerSig : Sig
deriving DecidableEq

/-- NtShare: a notarization share for a block proposal. -/
structure NtShare where
  Round : Nat
  BP : Hash
  Owner : Addr
  SigShare : Sig
deriving DecidableEq

/-- bpNode (chain.go): a block proposal hanging off the fork tree.  The
float64 weight is only stored, never computed with, so Nat suffices. -/
structure BpNode where
  BP : Hash
  Weight : Nat
deriving DecidableEq

/-- blockNode (chain.go): a notarized block in the fork tree with its
child blocks and child proposals. -/
inductive BlockNode where
  | mk (block : Hash) (bp : Hash) (weight : Nat)
       (blockChildren : List BlockNode) (bpChildren : List BpNode)

/-- The block hash of a fork-tree node. -/
def BlockNode.blockH : BlockNode → Hash
  | .mk b _ _ _ _ => b

/-- The proposal hash of a fork-tree node. -/
def BlockNode.bpH : BlockNode → Hash
  | .mk _ p _ _ _ => p

/-- The stored weight of a fork-tree node. -/
def BlockNode.weight : BlockNode → Nat
  | .mk _ _ w _ _ => w

/-- The child blocks of a fork-tree node. -/
def BlockNode.children : BlockNode → List BlockNode
  | .mk _ _ _ cs _ => cs

/-- The child proposals of a fork-tree node. -/
def BlockNode.bps : BlockNode → List BpNode
  | .mk _ _ _ _ ps => ps

/-- Environment of external collaborators of the chain: content hashing
(SHA3 over rlp encodings), threshold-signature recovery and verification,
block encoding, the rlp decoder for transaction batches, the state root of
a transition (StateHash commits a scratch copy of the trie), the network
requester used by the syncer, and the dex environment for replaying
transactions. -/
structure CEnv where
  hashBP : BlockProposal → Hash
  hashBlock : Block → Hash
  hashNtShare : NtShare → Hash
  recoverNtSig : List NtShare → Option Sig
  verifySig : Sig → PK → Bytes → Bool
  encodeBlockNoSig : Block → Bytes
  decodeTxnList : Bytes → Option (List Bytes)
  stateHash : Transition → Hash
  requestBlock : Hash → Option Block
  requestBP : Hash → Option BlockProposal
  dexEnv : Env

/-- Chain (chain.go).  The transaction pool, the updater and the node
back-reference are external collaborators reached through callbacks
dispatched outside the chain state; they are not part of the chain state
and are omitted.  The group list carries each group's public key; the
system states are opaque (their content is never inspected by any
embedded path). -/
structure Chain where
  groupThreshold : Nat
  groups : List PK
  finalized : List Hash
  lastFinalizedState : Option DexState
  lastFinalizedSysState : Option Nat
  fork : List BlockNode
  bpNotOnFork : List BpNode
  unFinalizedState : Hash → Option DexState
  unFinalizedSysState : Hash → Option Nat
  hashToBlock : Hash → Option Block
  hashToBP : Hash → Option BlockProposal
  hashToNtShare : Hash → Option NtShare
  bpToNtShares : Hash → List NtShare
  bpNeedNotarize : Hash → Bool

/-- The most recent finalized block hash, c.finalized[len-1].  The
finalized list is nonempty for every chain built by NewChain; the default
covers the unreachable empty case. -/
def Chain.finalTip (c : Chain) : Hash := c.finalized.getLast?.getD 0

/-- Genesis(): c.finalized[0]. -/
def Chain.genesisHash (c : Chain) : Hash := c.finalized.headD 0

/-- FinalizedRound(): len(finalized) - 1. -/
def Chain.finalizedRound (c : Chain) : Nat := c.finalized.length - 1

/-- maxHeight (chain.go): the depth of the fork tree. -/
def maxHeight : List BlockNode → Nat
  | [] => 0
  | .mk _ _ _ cs _ :: rest => max (maxHeight cs + 1) (maxHeight rest)

/-- round() (chain.go): finalized length plus fork depth. -/
def Chain.roundN (c : Chain) : Nat := c.finalized.length + maxHeight c.fork

/-- blockToState (chain.go): the state of the most recent finalized block,
or the unfinalized state stored under the hash. -/
def Chain.blockToState (c : Chain) (h : Hash) : Option DexState :=
  if h = c.finalTip then c.lastFinalizedState else c.unFinalizedState h

/-- Result of searching the fork tree for a node and updating it in place
(the embedding of findPrevBlock followed by a mutation through the
returned pointer): the node is not in the tree, or the update panicked,
or the rebuilt tree. -/
inductive FindRes where
  | notFound
  | panicked
  | found (ns : List BlockNode)

/-- Depth-first search in findPrevBlock order (node, then its block
children, then its right siblings); the update function receives the
node's index among its siblings, which is the index findPrevBlock returns
alongside the node. -/
def findUpd (f : Nat → BlockNode → Option BlockNode) (h : Hash) :
    List BlockNode → Nat → FindRes
  | [], _ => .notFound
  | .mk b p w cs ps :: rest, i =>
    if b = h then
      match f i (.mk b p w cs ps) with
      | none => .panicked
      | some nd => .found (nd :: rest)
    else
      match findUpd f h cs 0 with
      | .found cs' => .found (.mk b p w cs' ps :: rest)
      | .panicked => .panicked
      | .notFound =>
        match findUpd f h rest (i + 1) with
        | .found rest' => .found (.mk b p w cs ps :: rest')
        | r => r

/-- addBP (chain.go).  Returns (chain, added, error).  A proposal already
present returns (false, nil) untouched; a proposal whose parent is neither
on the fork tree nor the finalized tip returns (false, error); otherwise
the proposal is indexed, linked under its parent (or to the off-fork
list) and marked as needing notarization.  The hand-off to the notary
(go recvBPForNotary) is an external callback. -/
def Chain.addBP (E : CEnv) (c : Chain) (bp : BlockProposal) (weight : Nat) :
    Chain × Bool × Option Unit :=
  let h := E.hashBP bp
  match c.hashToBP h with
  | some _ => (c, false, none)
  | none =>
    let u : BpNode := { BP := h, Weight := weight }
    match findUpd (fun _ nd => some (.mk nd.blockH nd.bpH nd.weight nd.children (nd.bps ++ [u]))) bp.PrevBlock c.fork 0 with
    | .found fork' =>
      ({ c with
          fork := fork',
          hashToBP := fun h' => if h' = h then some bp else c.hashToBP h',
          bpNeedNotarize := fun h' => if h' = h then true else c.bpNeedNotarize h' },
       true, none)
    | _ =>
      if c.finalTip ≠ bp.PrevBlock then (c, false, some ())
      else
        ({ c with
            bpNotOnFork := c.bpNotOnFork ++ [u],
            hashToBP := fun h' => if h' = h then some bp else c.hashToBP h',
            bpNeedNotarize := fun h' => if h' = h then true else c.bpNeedNotarize h' },
         true, none)

/-- Replay loop of getTransition (chain.go): records each transaction,
failing as soon as one is not both valid and successful; a panic inside
Record propagates. -/
def getTransitionAux (E : CEnv) : Transition → List Bytes → Option (Except Unit Transition)
  | t, [] => some (.ok t)
  | t, b :: rest =>
    match Transition.Record E.dexEnv t b with
    | none => none
    | some (t', v, s) =>
      if v && s then getTransitionAux E t' rest else some (.error ())

/-- getTransition (chain.go): opens a transition on the state and replays
the proposal's transaction batch.  Empty data yields the fresh transition;
undecodable data or a failing transaction is an error; the outer none is a
panic inside Record. -/
def getTransition (E : CEnv) (s : DexState) (txnData : Bytes) (round : Nat) :
    Option (Except Unit Transition) :=
  let trans := s.toTransition
  if txnData = [] then some (.ok trans)
  else
    match E.decodeTxnList txnData with
    | none => some (.error ())
    | some txns => getTransitionAux E trans txns

/-- The block addNtShare constructs before the recovered signature is
attached: all fields from the proposal, the state root from the re-applied
transition. -/
def ntBlock (E : CEnv) (bp : BlockProposal) (trans : Transition) : Block :=
  { Owner := bp.Owner, Round := bp.Round, BlockProposal := E.hashBP bp,
    PrevBlock := bp.PrevBlock, SysTxns := bp.SysTxns,
    StateRoot := E.stateHash trans, NotarizationSig := 0 }

/-- The share list for the proposal after the incoming share is appended. -/
def ntSharesAfter (c : Chain) (n : NtShare) : List NtShare :=
  c.bpToNtShares n.BP ++ [n]

/-- The chain state after addNtShare reaches the threshold: the proposal
no longer needs notarization, its share pool is cleared (the append
followed by the delete nets to a delete), and every pooled share is
removed from the hash index. -/
def clearedNtChain (E : CEnv) (c : Chain) (n : NtShare) : Chain :=
  { c with
      bpNeedNotarize := fun h => if h = n.BP then false else c.bpNeedNotarize h,
      bpToNtShares := fun h => if h = n.BP then [] else c.bpToNtShares h,
      hashToNtShare := fun h =>
        if (ntSharesAfter c n).any (fun s => E.hashNtShare s = h) then none
        else c.hashToNtShare h }

/-- The chain state after addNtShare stores a share below the threshold:
the share is appended to the proposal's pool and indexed by its hash. -/
def pendingNtChain (E : CEnv) (c : Chain) (n : NtShare) : Chain :=
  { c with
      bpToNtShares := fun h => if h = n.BP then ntSharesAfter c n else c.bpToNtShares h,
      hashToNtShare := fun h => if h = E.hashNtShare n then some n else c.hashToNtShare h }

/-- addNtShare (chain.go).  Returns (chain, block?, added, success); none
where the source panics (signature recovery failure, missing parent state,
failing replay, group index out of range, recovered signature failing
verification).  An unknown proposal is (nil, false, false); a proposal
that no longer needs notarization, or a share from an owner already
pooled, is benign (success without adding).  Reaching the group threshold
recovers the signature, rebuilds the block from the re-applied transition,
verifies the signature against the group's key and clears the pool. -/
def Chain.addNtShare (E : CEnv) (c : Chain) (n : NtShare) (groupID : Nat) :
    Option (Chain × Option Block × Bool × Bool) :=
  match c.hashToBP n.BP with
  | none => some (c, none, false, false)
  | some bp =>
    if c.bpNeedNotarize n.BP then
      if (c.bpToNtShares n.BP).any (fun s => s.Owner = n.Owner) then
        some (c, none, false, true)
      else
        let shares := ntSharesAfter c n
        if c.groupThreshold ≤ shares.length then
          match E.recoverNtSig shares with
          | none => none
          | some sig =>
            match c.blockToState bp.PrevBlock with
            | none => none
            | some st =>
              match getTransition E st bp.Data bp.Round with
              | none => none
              | some (.error _) => none
              | some (.ok tr) =>
                let b0 := ntBlock E bp tr
                match c.groups.get? groupID with
                | none => none
                | some gpk =>
                  if E.verifySig sig gpk (E.encodeBlockNoSig b0) then
                    some (clearedNtChain E c n, some { b0 with NotarizationSig := sig }, true, true)
                  else none
        else some (pendingNtChain E c n, none, true, true)
    else some (c, none, false, true)

/-- finalize (chain.go, must be called with the depth to finalize).
Off-fork proposals are discarded; at depth 0 with a unique fork child that
child becomes the finalized tip (an empty fork panics on the index);
deeper depths panic ("not under normal operation"). -/
def Chain.finalize (c : Chain) (round : Nat) : Option Chain :=
  if round < c.finalized.length then some c
  else
    let depth := round - c.finalized.length
    let c1 := { c with bpNotOnFork := [] }
    if depth = 0 then
      if 1 < c1.fork.length then some c1
      else
        match c1.fork with
        | [] => none
        | f :: _ =>
          some { c1 with
              finalized := c1.finalized ++ [f.blockH],
              lastFinalizedState := c1.unFinalizedState f.blockH,
              unFinalizedState := fun h => if h = f.blockH then none else c1.unFinalizedState h,
              lastFinalizedSysState := c1.unFinalizedSysState f.blockH,
              unFinalizedSysState := fun h => if h = f.blockH then none else c1.unFinalizedSysState h,
              fork := f.children,
              bpNotOnFork := f.bps }
    else none

/-- Go slice removal append(l[:i], l[i+1:]...): defined for i < len,
panics otherwise. -/
def sliceRemove {α : Type} (l : List α) (i : Nat) : Option (List α) :=
  if i < l.length then some (l.take i ++ l.drop (i + 1)) else none

/-- The bpNotOnFork removal of addBlock: scan for the last entry whose BP
matches and remove it; when none matches the list is only logged about and
left unchanged. -/
def removeLastBp (h : Hash) : List BpNode → List BpNode
  | [] => []
  | e :: rest =>
    if rest.any (fun x => x.BP = h) then e :: removeLastBp h rest
    else if e.BP = h then rest else e :: removeLastBp h rest

/-- addBlock (chain.go).  Returns (chain, added, error); none where the
source panics (missing unfinalized parent system state, parent not found
on the fork tree, the out-of-range proposal-child removal, finalize
panics).  A block already present returns (false, nil) untouched.  The
transaction-pool removal, the updater call and the EndRound event are
external callbacks without effect on the chain state; a proposal with
undecodable transaction data makes the call return an error after the
insertions already happened. -/
def Chain.addBlock (E : CEnv) (c : Chain) (b : Block) (bp : BlockProposal)
    (s : DexState) (weight : Nat) : Option (Chain × Bool × Option Unit) :=
  let h := E.hashBlock b
  match c.hashToBlock h with
  | some _ => some (c, false, none)
  | none =>
    let nt : BlockNode := .mk h b.BlockProposal weight [] []
    let c1 := { c with
        unFinalizedState := fun h' => if h' = h then some s else c.unFinalizedState h' }
    let sysRes : Option (Option Nat × Bool) :=
      if bp.PrevBlock = c1.finalTip then some (c1.lastFinalizedSysState, true)
      else
        match c1.unFinalizedSysState bp.PrevBlock with
        | none => none
        | some pss => some (some pss, false)
    match sysRes with
    | none => none
    | some (prevSys, prevFinalized) =>
      let c2 := { c1 with
          unFinalizedSysState := fun h' => if h' = h then prevSys else c1.unFinalizedSysState h' }
      let forkRes : Option Chain :=
        if prevFinalized then
          some { c2 with
              fork := c2.fork ++ [nt],
              bpNotOnFork := removeLastBp nt.bpH c2.bpNotOnFork }
        else
          match findUpd (fun i nd =>
              match sliceRemove nd.bps i with
              | none => none
              | some ps => some (.mk nd.blockH nd.bpH nd.weight (nd.children ++ [nt]) ps))
            bp.PrevBlock c2.fork 0 with
          | .found fork' => some { c2 with fork := fork' }
          | _ => none
      match forkRes with
      | none => none
      | some c3 =>
        let c4 := { c3 with
            hashToBlock := fun h' => if h' = h then some b else c3.hashToBlock h',
            bpNeedNotarize := fun h' => if h' = b.BlockProposal then false else c3.bpNeedNotarize h',
            bpToNtShares := fun h' => if h' = b.BlockProposal then [] else c3.bpToNtShares h' }
        let round := c4.roundN
        let fin : Option Chain := if 3 < round then c4.finalize (round - 3) else some c4
        match fin with
        | none => none
        | some c5 =>
          if bp.Data ≠ [] then
            match E.decodeTxnList bp.Data with
            | none => some (c5, false, some ())
            | some _ => some (c5, true, none)
          else some (c5, true, none)

/-! ## Syncer (src/pkg/consensus/syncer.go) -/

/-- The distinguishable error outcomes of syncBlockAndConnectToChain. -/
inductive SyncErr where
  | requestFailed
  | cannotConnect
  | invalidStateRoot
  | applyFailed
deriving DecidableEq

/-- The tail of syncBlockAndConnectToChain after the parent state is in
hand: fetch the proposal, re-apply its transactions to the parent state,
compare the declared state root against the recomputed one (mismatch is
the invalid-state-root rejection, before any insertion), then add the
proposal and the block to the chain, ignoring their results as the source
does (it only logs them). -/
def syncFinish (E : CEnv) (c : Chain) (b : Block) (stOpt : Option DexState) :
    Option (Chain × Except SyncErr (Block × Option DexState)) :=
  match E.requestBP b.BlockProposal with
  | none => some (c, .error .requestFailed)
  | some bp =>
    match stOpt with
    | none => none
    | some st =>
      match getTransition E st bp.Data bp.Round with
      | none => none
      | some (.error _) => some (c, .error .applyFailed)
      | some (.ok tr) =>
        if E.stateHash tr ≠ b.StateRoot then some (c, .error .invalidStateRoot)
        else
          let c2 := (Chain.addBP E c bp 0).1
          let st' := tr.CommitState
          match Chain.addBlock E c2 b bp st' 0 with
          | none => none
          | some (c3, _, _) => some (c3, .ok (b, some st'))

/-- syncBlockAndConnectToChain (syncer.go).  A known hash returns the
stored block and its state.  A round at or below the finalized round that
is not known cannot connect.  Otherwise the block is fetched; at round 1
its parent must be the genesis block, else the parent is synced
recursively (inserting every validated ancestor), and the fetched block
is validated against the recomputed state root and inserted. -/
def syncBlock (E : CEnv) (c : Chain) (h : Hash) (round : Nat) :
    Option (Chain × Except SyncErr (Block × Option DexState)) :=
  match c.hashToBlock h with
  | some b => some (c, .ok (b, c.blockToState h))
  | none =>
    if hle : round ≤ c.finalizedRound then some (c, .error .cannotConnect)
    else
      match E.requestBlock h with
      | none => some (c, .error .requestFailed)
      | some b =>
        if h1 : round = 1 then
          if b.PrevBlock ≠ c.genesisHash then some (c, .error .cannotConnect)
          else syncFinish E c b (c.blockToState b.PrevBlock)
        else
          match syncBlock E c b.PrevBlock (round - 1) with
          | none => none
          | some (c2, .error e) => some (c2, .error e)
          | some (c2, .ok (_, stOpt)) => syncFinish E c2 b stOpt
termination_by round
decreasing_by
  simp only [Chain.finalizedRound] at hle
  omega

/-! ## Concrete instances used to witness the theorems -/

/-- The extra token of the end-to-end scenarios. -/
def acmeInfo : TokenInfo := { Symbol := "ACME", Decimals := 2, TotalUnits := 1000000 }

/-- A concrete dex environment: addresses are the public keys themselves,
and the decoders recognise a few fixed byte strings: [1] is a sell-side
PlaceOrder of 1000 ACME at price 5e8 expiring at round 100 from owner 0
(payload [10]), [2] is a SendToken of 10000 ACME from owner 0 to 1
(payload [20]), [3] is the same SendToken but with nonce value 9. -/
def sampleEnv : Env :=
  { addrOfPK := fun pk => pk,
    decodeTxn := fun b =>
      if b = [1] then some { T := .PlaceOrder, Data := [10], NonceIdx := 0, NonceValue := 0, Owner := 0 }
      else if b = [2] then some { T := .SendToken, Data := [20], NonceIdx := 0, NonceValue := 0, Owner := 0 }
      else if b = [3] then some { T := .SendToken, Data := [20], NonceIdx := 0, NonceValue := 9, Owner := 0 }
      else none,
    decodePlaceOrder := fun b =>
      if b = [10] then some { SellSide := true, Quant := 1000, Price := 500000000, ExpireRound := 100, Market := { Base := 1, Quote := 0 } }
      else none,
    decodeSendToken := fun b =>
      if b = [20] then some { TokenID := 1, To := 1, Quant := 10000 } else none,
    sigOk := fun _ => true }

/-- Scenario A genesis: recipients 0 and 1, extra token ACME. -/
def sampleGenesis : DexState := CreateGenesisState sampleEnv [0, 1] [acmeInfo]

/-- The transition opened on the scenario genesis. -/
def sampleT : Transition := sampleGenesis.toTransition

/-- Scenario D state: one account at address 0 whose nonce slot 0 is at
counter 7. -/
def nonceState : DexState :=
  { accounts := [(0, { PK := 0, Balances := fun _ => none, NonceVec := [7] })],
    tokens := [], pendingOrders := fun _ => [], orderExpirations := fun _ => [] }

/-- The scenario C input: buy-side order of 1000 at price 5e8 on the
market base ACME (1), quote BNB (0). -/
def buyOrderTxn : PlaceOrderTxn :=
  { SellSide := false, Quant := 1000, Price := 500000000, ExpireRound := 100,
    Market := { Base := 1, Quote := 0 } }

/-- An empty dex state (for the consensus scenarios, where the dex content
is irrelevant). -/
def emptyDex : DexState :=
  { accounts := [], tokens := [], pendingOrders := fun _ => [], orderExpirations := fun _ => [] }

/-- A concrete consensus environment for the notarization scenario:
proposals hash to 5, blocks hash to their round, shares hash to their
owner, signature recovery yields 7 and always verifies. -/
def cEnv3 : CEnv :=
  { hashBP := fun _ => 5, hashBlock := fun b => b.Round, hashNtShare := fun n => n.Owner,
    recoverNtSig := fun _ => some 7, verifySig := fun _ _ _ => true,
    encodeBlockNoSig := fun _ => [], decodeTxnList := fun _ => none,
    stateHash := fun _ => 0, requestBlock := fun _ => none, requestBP := fun _ => none,
    dexEnv := sampleEnv }

/-- The proposal being notarized in scenario E. -/
def bp3 : BlockProposal :=
  { Round := 1, PrevBlock := 100, Owner := 4, SysTxns := [], Data := [], OwnerSig := 0 }

/-- First stored share, owner 1. -/
def share1 : NtShare := { Round := 1, BP := 5, Owner := 1, SigShare := 11 }

/-- Second stored share, owner 2. -/
def share2 : NtShare := { Round := 1, BP := 5, Owner := 2, SigShare := 12 }

/-- The third share, owner 3, which reaches the threshold. -/
def share3 : NtShare := { Round := 1, BP := 5, Owner := 3, SigShare := 13 }

/-- Scenario E chain: threshold 3, one group with key 9, genesis hash 100
finalized, proposal bp3 stored under hash 5 with two shares pooled. -/
def chain3 : Chain :=
  { groupThreshold := 3, groups := [9], finalized := [100],
    lastFinalizedState := some emptyDex, lastFinalizedSysState := some 0,
    fork := [], bpNotOnFork := [],
    unFinalizedState := fun _ => none, unFinalizedSysState := fun _ => none,
    hashToBlock := fun _ => none,
    hashToBP := fun h => if h = 5 then some bp3 else none,
    hashToNtShare := fun _ => none,
    bpToNtShares := fun h => if h = 5 then [share1, share2] else [],
    bpNeedNotarize := fun h => if h = 5 then true else false }

/-- A freshly created chain (genesis hash 100 finalized, nothing else). -/
def chain5 : Chain :=
  { groupThreshold := 3, groups := [9], finalized := [100],
    lastFinalizedState := some emptyDex, lastFinalizedSysState := some 0,
    fork := [], bpNotOnFork := [],
    unFinalizedState := fun _ => none, unFinalizedSysState := fun _ => none,
    hashToBlock := fun _ => none, hashToBP := fun _ => none,
    hashToNtShare := fun _ => none, bpToNtShares := fun _ => [],
    bpNeedNotarize := fun _ => false }

/-- A proposal for round 1 on the fresh chain. -/
def bp5 : BlockProposal :=
  { Round := 1, PrevBlock := 100, Owner := 4, SysTxns := [], Data := [], OwnerSig := 0 }

/-- The corresponding notarized block (hashes to 1 under cEnv3). -/
def blk5 : Block :=
  { Owner := 4, Round := 1, BlockProposal := 5, PrevBlock := 100, SysTxns := [],
    StateRoot := 0, NotarizationSig := 7 }

/-- Round-1 proposal of the sync scenario (hashes to 51 under cEnv6). -/
def bp61 : BlockProposal :=
  { Round := 1, PrevBlock := 100, Owner := 4, SysTxns := [], Data := [], OwnerSig := 0 }

/-- Round-2 proposal of the sync scenario (hashes to 52 under cEnv6). -/
def bp62 : BlockProposal :=
  { Round := 2, PrevBlock := 11, Owner := 4, SysTxns := [], Data := [], OwnerSig := 0 }

/-- Round-1 block: correct state root 0, so it validates and is inserted. -/
def blk61 : Block :=
  { Owner := 4, Round := 1, BlockProposal := 51, PrevBlock := 100, SysTxns := [],
    StateRoot := 0, NotarizationSig := 0 }

/-- Round-2 block: declared state root 1 disagrees with the recomputed
root 0. -/
def blk62 : Block :=
  { Owner := 4, Round := 2, BlockProposal := 52, PrevBlock := 11, SysTxns := [],
    StateRoot := 1, NotarizationSig := 0 }

/-- Round-1 block with a wrong state root, for the no-recursion case. -/
def blk63 : Block :=
  { Owner := 4, Round := 1, BlockProposal := 51, PrevBlock := 100, SysTxns := [],
    StateRoot := 1, NotarizationSig := 0 }

/-- Consensus environment of the sync scenario: proposals hash to
50 + round, blocks hash to their round; the requester serves blk61 under
hash 11 and blk62 under hash 12. -/
def cEnv6 : CEnv :=
  { hashBP := fun bp => 50 + bp.Round, hashBlock := fun b => b.Round,
    hashNtShare := fun n => n.Owner, recoverNtSig := fun _ => none,
    verifySig := fun _ _ _ => true, encodeBlockNoSig := fun _ => [],
    decodeTxnList := fun _ => none, stateHash := fun _ => 0,
    requestBlock := fun h => if h = 11 then some blk61 else if h = 12 then some blk62 else none,
    requestBP := fun h => if h = 51 then some bp61 else if h = 52 then some bp62 else none,
    dexEnv := sampleEnv }

/-- Variant serving the mismatching round-1 block under hash 11. -/
def cEnv6w : CEnv :=
  { cEnv6 with requestBlock := fun h => if h = 11 then some blk63 else none }

/-- The token placeOrder sells from (mirrors the branch in part_000). -/
def sellTokenOf (p : PlaceOrderTxn) : TokenID :=
  if p.SellSide then p.Market.Base else p.Market.Quote

/-- The quantity placeOrder reserves (mirrors the branch in part_000). -/
def sellQuantOf (p : PlaceOrderTxn) : Nat :=
  if p.SellSide then p.Quant else sellQuantCode p.Quant p.Price

/-- Scenario A transfer: send 10000 ACME from recipient 0 to recipient 1
on the genesis state (it fails: recipient 1's account is stored, and the
source gob-decodes stored recipients into a nil pointer). -/
def scenarioASend : Option Transition :=
  (lookupAccount sampleGenesis.accounts 0).bind
    (fun acc => Transition.sendToken sampleEnv sampleT acc { TokenID := 1, To := 1, Quant := 10000 })

/-- Scenario C placement: recipient 0 places the buy-side order on the
genesis state. -/
def buyPlaced : Option Transition :=
  (lookupAccount sampleGenesis.accounts 0).bind
    (fun acc => Transition.placeOrder sampleEnv sampleT acc buyOrderTxn)

/-- Genesis with three recipients and no extra token: 3 does not divide
the BNB total supply. -/
def genesis3 : DexState := CreateGenesisState sampleEnv [0, 1, 2] []

/-- The result of recording the scenario B placement on the genesis
transition (the default is never taken: the call succeeds). -/
def c4Rec : Transition × Bool × Bool :=
  (Transition.Record sampleEnv sampleT [1]).getD (sampleT, false, false)

/-! ## Theorems -/

theorem length_enc64 (n : Nat) : (putUint64LE n ++ List.replicate 56 0).length = 64 := rfl

theorem uint64LE_roundtrip (n : Nat) (h : n < 18446744073709551616) :
    uint64LE (putUint64LE n ++ List.replicate 56 0) = n := by
  simp only [putUint64LE, uint64LE, List.cons_append, List.getD_cons_zero, List.getD_cons_succ]
  omega

/-- C9: Decode is a left inverse of Encode on every market symbol whose
components fit in 64 bits, and Decode rejects every byte string whose
length is not 128 with the length error. -/
theorem c9_encode_decode (m : MarketSymbol)
    (hb : m.Base < 18446744073709551616) (hq : m.Quote < 18446744073709551616)
    (b : Bytes) (hlen : b.length ≠ 128) :
    MarketSymbol.Decode m.Encode = .ok m ∧
    MarketSymbol.Decode b = .error (.lengthErr b.length) := by
  refine ⟨?_, by simp [MarketSymbol.Decode, hlen]⟩
  have hlen128 : m.Encode.length = 128 := rfl
  have htake : m.Encode.take 64 = putUint64LE m.Quote ++ List.replicate 56 0 :=
    List.take_left' (length_enc64 m.Quote)
  have hdrop : m.Encode.drop 64 = putUint64LE m.Base ++ List.replicate 56 0 :=
    List.drop_left' (length_enc64 m.Quote)
  simp only [MarketSymbol.Decode, hlen128, htake, hdrop, ne_eq, not_true_eq_false,
    if_false, uint64LE_roundtrip _ hb, uint64LE_roundtrip _ hq]

theorem c9_encode_decode_witness :
    MarketSymbol.Decode (MarketSymbol.Encode { Base := 3, Quote := 4 }) =
      .ok { Base := 3, Quote := 4 } ∧
    MarketSymbol.Decode [] = .error (.lengthErr 0) :=
  c9_encode_decode { Base := 3, Quote := 4 } (by decide) (by decide) [] (by decide)

/-- C10: failure atomicity of Record.  Whenever Record returns with
success = false (invalid transaction, not-ready nonce, failed payload
decode, failed placeOrder or sendToken), the transition it returns is the
input transition itself: no account balance, pending order, expiration
list or recorded-transaction list has changed. -/
theorem c10_record_atomic (E : Env) (t : Transition) (b : Bytes)
    (t' : Transition) (v : Bool)
    (h : Transition.Record E t b = some (t', v, false)) : t' = t := by
  unfold Transition.Record at h
  repeat' split at h
  all_goals simp_all

theorem c10_record_atomic_witness :
    Transition.Record sampleEnv sampleT [99] = some (sampleT, false, false) ∧
    sampleT = sampleT :=
  ⟨rfl, c10_record_atomic sampleEnv sampleT [99] sampleT false rfl⟩

/-- C7: a transaction whose nonce slot value exceeds the account's current
slot counter is valid but not ready: Record returns (valid = true,
success = false) and hands back the unchanged transition, so no account
state changes and the transaction is not appended to Txns(). -/
theorem c7_nonce_not_ready (E : Env) (t : Transition) (b : Bytes)
    (txn : Txn) (acc : Account)
    (hdec : E.decodeTxn b = some txn)
    (hacc : lookupAccount t.state.accounts txn.Owner = some acc)
    (hsig : E.sigOk txn = true)
    (hn : acc.NonceVec.getD txn.NonceIdx 0 < txn.NonceValue) :
    Transition.Record E t b = some (t, true, false) := by
  have hnotlt : ¬ txn.NonceValue < acc.NonceVec.getD txn.NonceIdx 0 := by omega
  have hA : ¬ txn.NonceValue < (acc.NonceVec[txn.NonceIdx]?).getD 0 := by
    simpa [List.getD_eq_getElem?_getD] using hnotlt
  have hB : (acc.NonceVec[txn.NonceIdx]?).getD 0 < txn.NonceValue := by
    simpa [List.getD_eq_getElem?_getD] using hn
  unfold Transition.Record validateSigAndNonce
  simp [hdec, hacc, hsig, hA, hB]

theorem c7_nonce_not_ready_witness :
    Transition.Record sampleEnv nonceState.toTransition [3] =
      some (nonceState.toTransition, true, false) :=
  c7_nonce_not_ready sampleEnv nonceState.toTransition [3]
    { T := .SendToken, Data := [20], NonceIdx := 0, NonceValue := 9, Owner := 0 }
    { PK := 0, Balances := fun _ => none, NonceVec := [7] }
    rfl rfl rfl (by decide)

/-- C8 counterexample: in the two-recipient genesis each recipient's BNB
Available balance is 10^16 (half of 2 * 10^16), not the claimed 10^14. -/
theorem c8_cex :
    ((lookupAccount sampleGenesis.accounts 0).map (fun a => a.Balances 0)) =
      some (some { Available := 10000000000000000, Pending := 0 }) ∧
    (10000000000000000 : Nat) ≠ 100000000000000 := by
  exact ⟨by decide, by decide⟩

/-- C8 as amended: scenario A with the behavior the code produces.  Each
genesis recipient holds 500000 ACME Available and 10^16 BNB Available
(all Pending zero), not the claimed 10^14 BNB; the SendToken of 10000
ACME from recipient 0 to recipient 1 then fails rather than succeeding:
recipient 1's account is stored, so the source gob-decodes it into a nil
pointer, which errors, sendToken returns false, and Record reports the
transaction valid but unsuccessful with every balance left at its
genesis value. -/
theorem c8_scenario_a :
    ((lookupAccount sampleGenesis.accounts 0).map (fun a => (a.Balances 1, a.Balances 0))) =
      some (some { Available := 500000, Pending := 0 },
            some { Available := 10000000000000000, Pending := 0 }) ∧
    ((lookupAccount sampleGenesis.accounts 1).map (fun a => (a.Balances 1, a.Balances 0))) =
      some (some { Available := 500000, Pending := 0 },
            some { Available := 10000000000000000, Pending := 0 }) ∧
    scenarioASend = none ∧
    Transition.Record sampleEnv sampleT [2] = some (sampleT, true, false) := by
  refine ⟨by decide, by decide, rfl, rfl⟩

/-- C2: evaluation of the code at the failing input.  The buy-side
placement of quant 1000 at price 5e8 reserves
sellQuantCode 1000 5e8 = 5 * 10^11 quote units (the source computes
uint64(float64(quant) * price), exact here), moving that amount from the
owner's BNB Available to Pending, whereas the claim's formula
floor(quant * price / 10^8) gives 5000. -/
theorem c2_code_eval :
    sellQuantCode 1000 500000000 = 500000000000 ∧
    (1000 * 500000000 / 100000000 : Nat) = 5000 ∧
    (500000000000 : Nat) ≠ 5000 ∧
    (buyPlaced.map (fun t' => (lookupAccount t'.state.accounts 0).map (fun a => a.Balances 0))) =
      some (some (some { Available := 9999500000000000, Pending := 500000000000 })) := by
  refine ⟨by decide, by decide, by decide, by decide⟩

theorem lookup_update_self (l : List (Addr × Account)) (a : Addr) (acc : Account) :
    lookupAccount (updateAccountList l a acc) a = some acc := by
  induction l with
  | nil => simp [updateAccountList, lookupAccount]
  | cons p rest ih =>
    obtain ⟨k, v⟩ := p
    by_cases hk : k = a
    · subst hk
      simp [updateAccountList, lookupAccount]
    · simpa [updateAccountList, hk, lookupAccount] using ih

theorem lookup_update_ne (l : List (Addr × Account)) (a a' : Addr) (acc : Account)
    (h : a' ≠ a) :
    lookupAccount (updateAccountList l a acc) a' = lookupAccount l a' := by
  induction l with
  | nil => simp [updateAccountList, lookupAccount, Ne.symm h]
  | cons p rest ih =>
    obtain ⟨k, v⟩ := p
    by_cases hk : k = a
    · subst hk
      have hk' : ¬ k = a' := fun hh => h hh.symm
      simp [updateAccountList, lookupAccount, hk']
    · by_cases hk2 : k = a'
      · subst hk2
        simp [updateAccountList, hk, lookupAccount]
      · simpa [updateAccountList, hk, lookupAccount, hk2] using ih

/-- C4 as amended: a PlaceOrder transaction Record reports successful
moves sellQuant from the owner's sell-token Available to Pending (the
balance check requires a strict surplus), appends a PendingOrder entry
for the market whose order is the zero matching.Order (not the placed
order), appends the transaction bytes to Txns(), and leaves every order
expiration list untouched: no expiration is indexed at ExpireRound. -/
theorem c4_place_order_effects (E : Env) (t : Transition) (b : Bytes)
    (txn : Txn) (p : PlaceOrderTxn) (acc : Account) (b0 : Balance) (t' : Transition)
    (hdec : E.decodeTxn b = some txn)
    (hT : txn.T = .PlaceOrder)
    (hp : E.decodePlaceOrder txn.Data = some p)
    (hacc : lookupAccount t.state.accounts txn.Owner = some acc)
    (hsig : E.sigOk txn = true)
    (hready : acc.NonceVec.getD txn.NonceIdx 0 = txn.NonceValue)
    (hb0 : acc.Balances (sellTokenOf p) = some b0)
    (hrec : Transition.Record E t b = some (t', true, true)) :
    ((lookupAccount t'.state.accounts (E.addrOfPK acc.PK)).map
        (fun a => a.Balances (sellTokenOf p))) =
      some (some { Available := b0.Available - sellQuantOf p,
                   Pending := b0.Pending + sellQuantOf p }) ∧
    sellQuantOf p < b0.Available ∧
    t'.state.pendingOrders p.Market =
      t.state.pendingOrders p.Market ++
        [{ Owner := E.addrOfPK acc.PK, Order := MOrder.zero }] ∧
    t'.state.orderExpirations = t.state.orderExpirations ∧
    t'.Txns = t.Txns ++ [b] := by
  have hA : ¬ txn.NonceValue < acc.NonceVec.getD txn.NonceIdx 0 := by omega
  have hB : ¬ acc.NonceVec.getD txn.NonceIdx 0 < txn.NonceValue := by omega
  unfold Transition.Record validateSigAndNonce at hrec
  simp only [hdec] at hrec
  simp only [hacc] at hrec
  simp only [hsig, if_true, if_neg hA, if_neg hB, hT, hp] at hrec
  simp only [sellTokenOf] at hb0
  unfold Transition.placeOrder at hrec
  split at hrec
  · exact absurd hrec (by simp)
  next t1 heq =>
    rw [Option.some.injEq, Prod.mk.injEq] at hrec
    obtain ⟨ht', -⟩ := hrec
    split at heq
    · exact absurd heq (by simp)
    split at heq
    · exact absurd heq (by simp)
    simp only [hb0] at heq
    cases hps : p.SellSide
    all_goals simp only [hps, Bool.false_eq_true, if_false, if_true] at heq
    all_goals split at heq
    all_goals try exact Option.noConfusion heq
    all_goals
      rename_i hgt
      rw [Option.some.injEq] at heq
      subst heq
      subst ht'
      have hlt : sellQuantOf p < b0.Available := by
        simp only [sellQuantOf, sellQuantCode, hps, Bool.false_eq_true, if_false, if_true]
        try simp only [sellQuantCode] at hgt
        omega
      refine ⟨?_, hlt, ?_, rfl, rfl⟩
      · simp [DexState.UpdatePendingOrder, DexState.UpdateAccount, sellTokenOf, sellQuantOf,
          sellQuantCode, hps, lookup_update_self]
      · simp [DexState.UpdatePendingOrder, DexState.UpdateAccount]

theorem c4_place_order_effects_witness :
    ((lookupAccount (c4Rec.1.state.accounts) 0).map (fun a => a.Balances 1)) =
      some (some { Available := 499000, Pending := 1000 }) ∧
    c4Rec.1.state.orderExpirations = sampleT.state.orderExpirations ∧
    c4Rec.1.Txns = sampleT.Txns ++ [[1]] := by
  have h := c4_place_order_effects sampleEnv sampleT [1]
      { T := .PlaceOrder, Data := [10], NonceIdx := 0, NonceValue := 0, Owner := 0 }
      { SellSide := true, Quant := 1000, Price := 500000000, ExpireRound := 100,
        Market := { Base := 1, Quote := 0 } }
      { PK := 0, Balances := genesisBalances (genesisTokens [acmeInfo]) 2, NonceVec := [] }
      { Available := 500000, Pending := 0 } c4Rec.1
      rfl rfl rfl rfl rfl rfl rfl rfl
  obtain ⟨h1, -, -, h4, h5⟩ := h
  exact ⟨h1, h4, h5⟩

/-- C4 counterexample: the scenario B placement is recorded successfully
(valid = true, success = true), yet the order expiration list at the
transaction's ExpireRound 100 is empty afterwards: placeOrder never
indexes an expiration, refuting the claim as stated. -/
theorem c4_cex :
    (Transition.Record sampleEnv sampleT [1]).map
        (fun r => (r.2.1, r.2.2, r.1.state.orderExpirations 100)) =
      some (true, true, []) := by
  decide

theorem lookup_mem (l : List (Addr × Account)) (a : Addr) (acc : Account)
    (h : lookupAccount l a = some acc) : (a, acc) ∈ l := by
  unfold lookupAccount at h
  cases hf : l.find? (fun p => p.1 = a) with
  | none => rw [hf] at h; exact Option.noConfusion h
  | some q =>
    have hq : q ∈ l := List.mem_of_find?_eq_some hf
    have hqa : q.1 = a := by simpa using List.find?_some hf
    rw [hf] at h
    have hv : q.2 = acc := by simpa using h
    have hqe : q = (a, acc) := by
      obtain ⟨q1, q2⟩ := q
      simp_all
    rwa [hqe] at hq

theorem mem_updateAccountList (l : List (Addr × Account)) (a : Addr) (acc : Account)
    (p : Addr × Account) : p ∈ updateAccountList l a acc → p ∈ l ∨ p = (a, acc) := by
  induction l with
  | nil =>
    intro hp
    simpa [updateAccountList] using hp
  | cons q rest ih =>
    intro hp
    obtain ⟨k, v⟩ := q
    by_cases hk : k = a
    · subst hk
      rw [show updateAccountList ((k, v) :: rest) k acc = (k, acc) :: rest by
        simp [updateAccountList]] at hp
      rcases List.mem_cons.mp hp with hp1 | hp1
      · exact Or.inr hp1
      · exact Or.inl (List.mem_cons_of_mem _ hp1)
    · rw [show updateAccountList ((k, v) :: rest) a acc =
          (k, v) :: updateAccountList rest a acc by simp [updateAccountList, hk]] at hp
      rcases List.mem_cons.mp hp with hp1 | hp1
      · exact Or.inl (List.mem_cons.mpr (Or.inl hp1))
      · rcases ih hp1 with hh | hh
        · exact Or.inl (List.mem_cons_of_mem _ hh)
        · exact Or.inr hh

theorem wf_update_key (E : Env) (l : List (Addr × Account)) (acc : Account)
    (h : ∀ p ∈ l, E.addrOfPK p.2.PK = p.1) :
    ∀ p ∈ updateAccountList l (E.addrOfPK acc.PK) acc, E.addrOfPK p.2.PK = p.1 := by
  intro p hp
  rcases mem_updateAccountList _ _ _ _ hp with hh | hh
  · exact h p hh
  · subst hh
    rfl

theorem sumTok_cons (q : Addr × Account) (l : List (Addr × Account)) (id : TokenID) :
    sumTok (q :: l) id = balOf q.2 id + sumTok l id := by
  simp [sumTok]

theorem sumTok_update_present (l : List (Addr × Account)) (a : Addr)
    (acc0 acc : Account) (id : TokenID)
    (h : lookupAccount l a = some acc0) :
    sumTok (updateAccountList l a acc) id + balOf acc0 id = sumTok l id + balOf acc id := by
  induction l with
  | nil => simp [lookupAccount] at h
  | cons q rest ih =>
    obtain ⟨k, v⟩ := q
    by_cases hk : k = a
    · subst hk
      have hv : acc0 = v := by
        have h2 := h
        simp [lookupAccount] at h2
        exact h2.symm
      rw [show updateAccountList ((k, v) :: rest) k acc = (k, acc) :: rest by
        simp [updateAccountList]]
      simp only [sumTok_cons, hv]
      omega
    · have h' : lookupAccount rest a = some acc0 := by
        simpa [lookupAccount, hk] using h
      have := ih h'
      simp only [updateAccountList, if_neg hk, sumTok_cons]
      omega

theorem sumTok_update_absent (l : List (Addr × Account)) (a : Addr)
    (acc : Account) (id : TokenID)
    (h : lookupAccount l a = none) :
    sumTok (updateAccountList l a acc) id = sumTok l id + balOf acc id := by
  induction l with
  | nil => simp [updateAccountList, sumTok, balOf]
  | cons q rest ih =>
    obtain ⟨k, v⟩ := q
    by_cases hk : k = a
    · subst hk
      simp [lookupAccount] at h
    · have h' : lookupAccount rest a = none := by
        simpa [lookupAccount, hk] using h
      have := ih h'
      simp only [updateAccountList, if_neg hk, sumTok_cons]
      omega

theorem sumTok_write_balanced (l : List (Addr × Account)) (a : Addr)
    (acc acc' : Account) (id : TokenID)
    (hacc : lookupAccount l a = some acc)
    (hbal : balOf acc' id = balOf acc id) :
    sumTok (updateAccountList l a acc') id = sumTok l id := by
  have key := sumTok_update_present l a acc acc' id hacc
  omega

theorem validate_some (E : Env) (s : DexState) (b : Bytes) (txn : Txn) (acc : Account)
    (ready : Bool)
    (h : validateSigAndNonce E s b = (some txn, some acc, ready, true)) :
    E.decodeTxn b = some txn ∧ lookupAccount s.accounts txn.Owner = some acc := by
  unfold validateSigAndNonce at h
  cases hd : E.decodeTxn b with
  | none =>
    simp only [hd] at h
    exact absurd h (by simp)
  | some txn0 =>
    simp only [hd] at h
    cases ha : lookupAccount s.accounts txn0.Owner with
    | none =>
      simp only [ha] at h
      exact absurd h (by simp)
    | some acc0 =>
      simp only [ha] at h
      by_cases hs : E.sigOk txn0
      · simp only [hs, if_true] at h
        by_cases h1 : txn0.NonceValue < acc0.NonceVec.getD txn0.NonceIdx 0
        · rw [if_pos h1] at h
          simp at h
        · rw [if_neg h1] at h
          by_cases h2 : acc0.NonceVec.getD txn0.NonceIdx 0 < txn0.NonceValue
          · rw [if_pos h2] at h
            simp only [Prod.mk.injEq, Option.some.injEq] at h
            obtain ⟨rfl, rfl, -⟩ := h
            exact ⟨rfl, ha⟩
          · rw [if_neg h2] at h
            simp only [Prod.mk.injEq, Option.some.injEq] at h
            obtain ⟨rfl, rfl, -⟩ := h
            exact ⟨rfl, ha⟩
      · rw [if_neg hs] at h
        simp at h

theorem placeOrder_invariant (E : Env) (t : Transition) (acc : Account) (p : PlaceOrderTxn)
    (t1 : Transition) (id : TokenID)
    (hpo : Transition.placeOrder E t acc p = some t1)
    (hacc : lookupAccount t.state.accounts (E.addrOfPK acc.PK) = some acc) :
    t1.state.sumTok id = t.state.sumTok id ∧
    (Wf E t.state → Wf E t1.state) ∧ t1.txns = t.txns := by
  unfold Transition.placeOrder at hpo
  split at hpo
  · exact Option.noConfusion hpo
  split at hpo
  · exact Option.noConfusion hpo
  cases hsb : acc.Balances (if p.SellSide = true then p.Market.Base else p.Market.Quote) with
  | none =>
    simp only [hsb] at hpo
    exact Option.noConfusion hpo
  | some sb =>
    simp only [hsb] at hpo
    by_cases hle : sb.Available ≤
        (if p.SellSide = true then p.Quant else sellQuantCode p.Quant p.Price)
    · rw [if_pos hle] at hpo
      exact Option.noConfusion hpo
    · rw [if_neg hle] at hpo
      rw [Option.some.injEq] at hpo
      subst hpo
      refine ⟨?_, ?_, rfl⟩
      · simp only [DexState.sumTok, DexState.UpdatePendingOrder, DexState.UpdateAccount]
        apply sumTok_write_balanced _ _ acc _ _ hacc
        unfold balOf
        by_cases hid : id = (if p.SellSide = true then p.Market.Base else p.Market.Quote)
        · rw [hid]
          simp [hsb]
          omega
        · simp [hid, hsb]
      · intro hwf q hqmem
        exact wf_update_key E t.state.accounts _ hwf q hqmem

theorem wf_update_any (E : Env) (l : List (Addr × Account)) (a : Addr) (acc : Account)
    (hkey : E.addrOfPK acc.PK = a) (h : ∀ p ∈ l, E.addrOfPK p.2.PK = p.1) :
    ∀ p ∈ updateAccountList l a acc, E.addrOfPK p.2.PK = p.1 := by
  intro p hp
  rcases mem_updateAccountList _ _ _ _ hp with hh | hh
  · exact h p hh
  · subst hh
    exact hkey

theorem sumTok_write2_absent (l : List (Addr × Account)) (ka kb : Addr)
    (A B acc : Account) (id : TokenID)
    (hk : kb ≠ ka)
    (ha : lookupAccount l ka = none)
    (hb : lookupAccount l kb = some acc)
    (hbal : balOf A id + balOf B id = balOf acc id) :
    sumTok (updateAccountList (updateAccountList l ka A) kb B) id = sumTok l id := by
  have h1 := sumTok_update_absent l ka A id ha
  have hl : lookupAccount (updateAccountList l ka A) kb = some acc := by
    rw [lookup_update_ne _ _ _ _ hk]
    exact hb
  have h2 := sumTok_update_present (updateAccountList l ka A) kb acc B id hl
  omega

theorem sumTok_write2_present (l : List (Addr × Account)) (ka kb : Addr)
    (A B acc a0 : Account) (id : TokenID)
    (hk : kb ≠ ka)
    (ha : lookupAccount l ka = some a0)
    (hb : lookupAccount l kb = some acc)
    (hbal : balOf A id + balOf B id = balOf a0 id + balOf acc id) :
    sumTok (updateAccountList (updateAccountList l ka A) kb B) id = sumTok l id := by
  have h1 := sumTok_update_present l ka a0 A id ha
  have hl : lookupAccount (updateAccountList l ka A) kb = some acc := by
    rw [lookup_update_ne _ _ _ _ hk]
    exact hb
  have h2 := sumTok_update_present (updateAccountList l ka A) kb acc B id hl
  omega

theorem sendToken_invariant (E : Env) (t : Transition) (acc : Account) (st : SendTokenTxn)
    (t1 : Transition) (id : TokenID)
    (hsd : Transition.sendToken E t acc st = some t1)
    (hacc : lookupAccount t.state.accounts (E.addrOfPK acc.PK) = some acc)
    (hwf : Wf E t.state) :
    t1.state.sumTok id = t.state.sumTok id ∧ Wf E t1.state ∧ t1.txns = t.txns := by
  unfold Transition.sendToken at hsd
  split at hsd
  · exact Option.noConfusion hsd
  cases hbb : acc.Balances st.TokenID with
  | none =>
    simp only [hbb] at hsd
    exact Option.noConfusion hsd
  | some bb =>
    simp only [hbb] at hsd
    by_cases hav : bb.Available < st.Quant
    · rw [if_pos hav] at hsd
      exact Option.noConfusion hsd
    · rw [if_neg hav] at hsd
      cases hto : lookupAccount t.state.accounts (E.addrOfPK st.To) with
      | some a0 =>
        simp only [hto] at hsd
        exact Option.noConfusion hsd
      | none =>
        simp only [hto] at hsd
        rw [Option.some.injEq] at hsd
        subst hsd
        have hne : E.addrOfPK st.To ≠ E.addrOfPK acc.PK := by
          intro he
          rw [he, hacc] at hto
          exact Option.noConfusion hto
        refine ⟨?_, ?_, rfl⟩
        · simp only [DexState.sumTok, DexState.UpdateAccount]
          apply sumTok_write2_absent _ _ _ _ _ acc id (Ne.symm hne) hto hacc
          unfold balOf
          by_cases hid : id = st.TokenID
          · rw [hid]
            simp [hbb]
            omega
          · simp [hid, hbb]
        · apply wf_update_any E _ _ _ rfl
          apply wf_update_any E _ _ _ rfl
          exact hwf

theorem recordStep_invariant (E : Env) (t : Transition) (b : Bytes) (id : TokenID)
    (hwf : Wf E t.state) :
    (recordStep E t b).state.sumTok id = t.state.sumTok id ∧
    Wf E (recordStep E t b).state := by
  unfold recordStep
  cases hR : Transition.Record E t b with
  | none => exact ⟨rfl, hwf⟩
  | some r =>
    obtain ⟨t', v, s⟩ := r
    unfold Transition.Record at hR
    split at hR
    · rw [Option.some.injEq, Prod.mk.injEq] at hR
      obtain ⟨rfl, -⟩ := hR
      exact ⟨rfl, hwf⟩
    case h_2 txn acc ready heq =>
      obtain ⟨hdec, hacc⟩ := validate_some E t.state b txn acc ready heq
      have hown : E.addrOfPK acc.PK = txn.Owner :=
        hwf (txn.Owner, acc) (lookup_mem _ _ _ hacc)
      have hacc' : lookupAccount t.state.accounts (E.addrOfPK acc.PK) = some acc := by
        rw [hown]
        exact hacc
      by_cases hrdy : ready = true
      · rw [if_pos hrdy] at hR
        cases hT : txn.T with
        | CancelOrder =>
          simp only [hT] at hR
          exact Option.noConfusion hR
        | IssueToken =>
          simp only [hT] at hR
          exact Option.noConfusion hR
        | FreezeToken =>
          simp only [hT] at hR
          exact Option.noConfusion hR
        | BurnToken =>
          simp only [hT] at hR
          exact Option.noConfusion hR
        | PlaceOrder =>
          simp only [hT] at hR
          cases hp : E.decodePlaceOrder txn.Data with
          | none =>
            simp only [hp] at hR
            rw [Option.some.injEq, Prod.mk.injEq] at hR
            obtain ⟨rfl, -⟩ := hR
            exact ⟨rfl, hwf⟩
          | some p =>
            simp only [hp] at hR
            cases hpo : Transition.placeOrder E t acc p with
            | none =>
              simp only [hpo] at hR
              rw [Option.some.injEq, Prod.mk.injEq] at hR
              obtain ⟨rfl, -⟩ := hR
              exact ⟨rfl, hwf⟩
            | some t1 =>
              simp only [hpo] at hR
              rw [Option.some.injEq, Prod.mk.injEq] at hR
              obtain ⟨ht', -⟩ := hR
              have key := placeOrder_invariant E t acc p t1 id hpo hacc'
              rw [← ht']
              exact ⟨key.1, key.2.1 hwf⟩
        | SendToken =>
          simp only [hT] at hR
          cases hst : E.decodeSendToken txn.Data with
          | none =>
            simp only [hst] at hR
            rw [Option.some.injEq, Prod.mk.injEq] at hR
            obtain ⟨rfl, -⟩ := hR
            exact ⟨rfl, hwf⟩
          | some stx =>
            simp only [hst] at hR
            cases hsd : Transition.sendToken E t acc stx with
            | none =>
              simp only [hsd] at hR
              rw [Option.some.injEq, Prod.mk.injEq] at hR
              obtain ⟨rfl, -⟩ := hR
              exact ⟨rfl, hwf⟩
            | some t1 =>
              simp only [hsd] at hR
              rw [Option.some.injEq, Prod.mk.injEq] at hR
              obtain ⟨ht', -⟩ := hR
              have key := sendToken_invariant E t acc stx t1 id hsd hacc' hwf
              rw [← ht']
              exact ⟨key.1, key.2.1⟩
      · rw [if_neg hrdy] at hR
        rw [Option.some.injEq, Prod.mk.injEq] at hR
        obtain ⟨rfl, -⟩ := hR
        exact ⟨rfl, hwf⟩
    · rw [Option.some.injEq, Prod.mk.injEq] at hR
      obtain ⟨rfl, -⟩ := hR
      exact ⟨rfl, hwf⟩

theorem recordAll_invariant (E : Env) (bs : List Bytes) (t : Transition) (id : TokenID)
    (hwf : Wf E t.state) :
    (recordAll E t bs).state.sumTok id = t.state.sumTok id ∧ Wf E (recordAll E t bs).state := by
  induction bs generalizing t with
  | nil => exact ⟨rfl, hwf⟩
  | cons b rest ih =>
    have step := recordStep_invariant E t b id hwf
    have ihh := ih (recordStep E t b) step.2
    unfold recordAll at ihh ⊢
    simp only [List.foldl_cons]
    exact ⟨ihh.1.trans step.1, ihh.2⟩

theorem genesisBalances_aux (n : Nat) (id : TokenID) (ts : List Token)
    (f : TokenID → Option Balance) :
    (ts.foldl
        (fun g t => fun i =>
          if i = t.ID then (some ⟨t.info.TotalUnits / n, 0⟩) else g i) f) id =
      match ts.reverse.find? (fun t => t.ID = id) with
      | some tk => some ⟨tk.info.TotalUnits / n, 0⟩
      | none => f id := by
  induction ts generalizing f with
  | nil => simp
  | cons t ts ih =>
    simp only [List.foldl_cons, List.reverse_cons, List.find?_append]
    rw [ih]
    cases hf : ts.reverse.find? (fun u => u.ID = id) with
    | some tk => simp [Option.or]
    | none =>
      by_cases hid : t.ID = id
      · rw [List.find?_cons_of_pos _ (by simp [hid])]
        simp only [Option.or]
        simp [if_pos hid.symm, hid]
      · rw [List.find?_cons_of_neg _ (by simp [hid])]
        have hid' : ¬ id = t.ID := fun hh => hid hh.symm
        simp only [Option.or]
        simp [hid']

theorem genesisBalances_eq (tokens : List Token) (n : Nat) (id : TokenID) :
    genesisBalances tokens n id =
      match tokens.reverse.find? (fun t => t.ID = id) with
      | some tk => some ⟨tk.info.TotalUnits / n, 0⟩
      | none => none :=
  genesisBalances_aux n id tokens (fun _ => none)

theorem wf_fold (E : Env) (B : TokenID → Option Balance) (l : List PK) (s : DexState)
    (hw : Wf E s) :
    Wf E (l.foldl
      (fun s2 pk => DexState.UpdateAccount E s2 { PK := pk, Balances := B, NonceVec := [] }) s) := by
  induction l generalizing s with
  | nil => exact hw
  | cons pk rest ih =>
    refine ih _ ?_
    intro p hp
    exact wf_update_any E s.accounts _ _ rfl hw p hp

theorem genesis_fold_sum (E : Env) (B : TokenID → Option Balance) (pks : List PK)
    (s : DexState) (id : TokenID)
    (hnd : (pks.map E.addrOfPK).Nodup)
    (hfresh : ∀ pk ∈ pks, lookupAccount s.accounts (E.addrOfPK pk) = none) :
    (pks.foldl
        (fun s2 pk => DexState.UpdateAccount E s2 { PK := pk, Balances := B, NonceVec := [] })
        s).sumTok id =
      s.sumTok id +
        pks.length * (match B id with | none => 0 | some bal => bal.Available + bal.Pending) := by
  induction pks generalizing s with
  | nil => simp
  | cons pk rest ih =>
    simp only [List.foldl_cons]
    have hnd' : (rest.map E.addrOfPK).Nodup := by
      rw [List.map_cons, List.nodup_cons] at hnd
      exact hnd.2
    have hpknotin : E.addrOfPK pk ∉ rest.map E.addrOfPK := by
      rw [List.map_cons, List.nodup_cons] at hnd
      exact hnd.1
    have hfresh' : ∀ q ∈ rest,
        lookupAccount (DexState.UpdateAccount E s
          { PK := pk, Balances := B, NonceVec := [] }).accounts (E.addrOfPK q) = none := by
      intro q hq
      have hne : E.addrOfPK q ≠ E.addrOfPK pk := by
        intro hhh
        exact hpknotin (hhh ▸ List.mem_map_of_mem E.addrOfPK hq)
      simp only [DexState.UpdateAccount]
      rw [lookup_update_ne _ _ _ _ hne]
      exact hfresh q (List.mem_cons_of_mem _ hq)
    rw [ih _ hnd' hfresh']
    have habs := sumTok_update_absent s.accounts (E.addrOfPK pk)
      { PK := pk, Balances := B, NonceVec := [] } id (hfresh pk (List.mem_cons_self pk rest))
    simp only [DexState.sumTok, DexState.UpdateAccount]
    rw [habs]
    have hbal : balOf { PK := pk, Balances := B, NonceVec := [] } id =
        (match B id with | none => 0 | some bal => bal.Available + bal.Pending) := rfl
    rw [hbal, List.length_cons, Nat.succ_mul]
    omega

theorem genesis_sum (E : Env) (pks : List PK) (toks : List TokenInfo) (id : TokenID)
    (hnd : (pks.map E.addrOfPK).Nodup) :
    (CreateGenesisState E pks toks).sumTok id =
      pks.length *
        (match genesisBalances (genesisTokens toks) pks.length id with
         | none => 0
         | some bal => bal.Available + bal.Pending) := by
  have key := genesis_fold_sum E (genesisBalances (genesisTokens toks) pks.length) pks
    { accounts := [], tokens := genesisTokens toks,
      pendingOrders := fun _ => [], orderExpirations := fun _ => [] }
    id hnd (fun pk _ => rfl)
  exact key.trans (by simp [DexState.sumTok, sumTok])

/-- C1 as amended: starting from CreateGenesisState with recipients of
pairwise distinct addresses, every state reachable by recording any
sequence of transactions satisfies, for every registered token,
sum over all accounts of Available + Pending =
numRecipients * (TotalUnits / numRecipients) (Go integer division) -- not
TotalUnits itself, which genesis only mints when numRecipients divides
TotalUnits.  Every state-changing operation conserves the sum: placeOrder
moves value from Available to Pending of the same account, and a
sendToken can only succeed towards an absent recipient (a stored
recipient — the sender's own address included — fails the nil-pointer
gob decode before any write), so it moves value between two distinct
account keys. -/
theorem c1_conservation (E : Env) (pks : List PK) (toks : List TokenInfo) (txs : List Bytes)
    (id : TokenID) (tk : Token)
    (hnd : (pks.map E.addrOfPK).Nodup)
    (htk : (genesisTokens toks).reverse.find? (fun u => u.ID = id) = some tk) :
    (recordAll E (CreateGenesisState E pks toks).toTransition txs).state.sumTok id =
      pks.length * (tk.info.TotalUnits / pks.length) := by
  have hwf0 : Wf E (CreateGenesisState E pks toks) := by
    unfold CreateGenesisState
    exact wf_fold E _ pks _ (fun p hp => absurd hp (List.not_mem_nil p))
  have hrec := recordAll_invariant E txs (CreateGenesisState E pks toks).toTransition id hwf0
  rw [hrec.1]
  show (CreateGenesisState E pks toks).sumTok id = _
  rw [genesis_sum E pks toks id hnd]
  rw [genesisBalances_eq, htk]
  simp

theorem c1_conservation_witness :
    (recordAll sampleEnv (CreateGenesisState sampleEnv [0, 1, 2] [acmeInfo]).toTransition
        [[2]]).state.sumTok 1 = 3 * (1000000 / 3) :=
  c1_conservation sampleEnv [0, 1, 2] [acmeInfo] [[2]] 1
    { ID := 1, info := acmeInfo } (by decide) (by decide)

/-- C1 counterexample: with three recipients the genesis state itself (the
committed state reachable by the empty transaction sequence) already
violates conservation for BNB: the per-recipient integer division mints
3 * floor(2e16 / 3) = 19999999999999998 units, not
BNBInfo.TotalUnits = 20000000000000000. -/
theorem c1_cex :
    (recordAll sampleEnv genesis3.toTransition []).state.sumTok 0 = 19999999999999998 ∧
    BNBInfo.TotalUnits = 20000000000000000 ∧
    (19999999999999998 : Nat) ≠ 20000000000000000 := by
  refine ⟨by decide, by decide, by decide⟩

theorem addBP_of_present (E : CEnv) (c : Chain) (bp : BlockProposal) (w : Nat)
    (q : BlockProposal) (h : c.hashToBP (E.hashBP bp) = some q) :
    Chain.addBP E c bp w = (c, false, none) := by
  unfold Chain.addBP
  simp only [h]

theorem addBlock_of_present (E : CEnv) (c : Chain) (b : Block) (bp : BlockProposal)
    (s : DexState) (w : Nat) (q : Block) (h : c.hashToBlock (E.hashBlock b) = some q) :
    Chain.addBlock E c b bp s w = some (c, false, none) := by
  unfold Chain.addBlock
  simp only [h]

theorem addBP_cases (E : CEnv) (c : Chain) (bp : BlockProposal) (w : Nat) :
    (∃ q, c.hashToBP (E.hashBP bp) = some q ∧ Chain.addBP E c bp w = (c, false, none)) ∨
    ((Chain.addBP E c bp w).1.hashToBP (E.hashBP bp) = some bp ∧
      (Chain.addBP E c bp w).2 = (true, none)) ∨
    Chain.addBP E c bp w = (c, false, some ()) := by
  cases hx : c.hashToBP (E.hashBP bp) with
  | some q =>
    exact Or.inl ⟨q, rfl, addBP_of_present E c bp w q hx⟩
  | none =>
    cases hf : findUpd
        (fun _ nd => some (.mk nd.blockH nd.bpH nd.weight nd.children
          (nd.bps ++ [{ BP := E.hashBP bp, Weight := w }])))
        bp.PrevBlock c.fork 0 with
    | found fork' =>
      refine Or.inr (Or.inl ⟨?_, ?_⟩)
      · unfold Chain.addBP
        simp only [hx, hf]
        simp
      · unfold Chain.addBP
        simp only [hx, hf]
    | notFound =>
      by_cases htip : c.finalTip ≠ bp.PrevBlock
      · refine Or.inr (Or.inr ?_)
        unfold Chain.addBP
        simp only [hx, hf]
        rw [if_pos htip]
      · refine Or.inr (Or.inl ⟨?_, ?_⟩)
        · unfold Chain.addBP
          simp only [hx, hf]
          rw [if_neg htip]
          simp
        · unfold Chain.addBP
          simp only [hx, hf]
          rw [if_neg htip]
    | panicked =>
      by_cases htip : c.finalTip ≠ bp.PrevBlock
      · refine Or.inr (Or.inr ?_)
        unfold Chain.addBP
        simp only [hx, hf]
        rw [if_pos htip]
      · refine Or.inr (Or.inl ⟨?_, ?_⟩)
        · unfold Chain.addBP
          simp only [hx, hf]
          rw [if_neg htip]
          simp
        · unfold Chain.addBP
          simp only [hx, hf]
          rw [if_neg htip]

theorem finalize_keeps_hashToBlock (c : Chain) (n : Nat) (c' : Chain)
    (h : Chain.finalize c n = some c') : c'.hashToBlock = c.hashToBlock := by
  unfold Chain.finalize at h
  split at h
  · rw [Option.some.injEq] at h
    subst h
    rfl
  by_cases hd : n - c.finalized.length = 0
  · simp only [hd, if_true] at h
    by_cases hf : 1 < c.fork.length
    · simp only [hf, if_true] at h
      rw [Option.some.injEq] at h
      subst h
      rfl
    · simp only [hf, if_false] at h
      cases hfk : c.fork with
      | nil =>
        simp only [hfk] at h
        exact Option.noConfusion h
      | cons f rest =>
        simp only [hfk] at h
        rw [Option.some.injEq] at h
        subst h
        rfl
  · simp only [hd, if_false] at h
    exact Option.noConfusion h

theorem addBlock_sets_hash (E : CEnv) (c : Chain) (b : Block) (bp : BlockProposal)
    (s : DexState) (w : Nat) (r : Chain × Bool × Option Unit)
    (h : Chain.addBlock E c b bp s w = some r) :
    ∃ q, r.1.hashToBlock (E.hashBlock b) = some q := by
  unfold Chain.addBlock at h
  cases hex : c.hashToBlock (E.hashBlock b) with
  | some b0 =>
    simp only [hex] at h
    rw [Option.some.injEq] at h
    subst h
    exact ⟨b0, hex⟩
  | none =>
    simp only [hex] at h
    split at h
    · exact Option.noConfusion h
    next prevSys prevFinalized heqSys =>
      split at h
      · exact Option.noConfusion h
      next c3 heqFork =>
        split at h
        · exact Option.noConfusion h
        next c5 heqFin =>
          have hc5 : c5.hashToBlock (E.hashBlock b) = some b := by
            split at heqFin
            · rw [finalize_keeps_hashToBlock _ _ _ heqFin]
              simp
            · rw [Option.some.injEq] at heqFin
              subst heqFin
              simp
          split at h
          · split at h
            · rw [Option.some.injEq] at h
              subst h
              exact ⟨b, hc5⟩
            · rw [Option.some.injEq] at h
              subst h
              exact ⟨b, hc5⟩
          · rw [Option.some.injEq] at h
            subst h
            exact ⟨b, hc5⟩

/-- C5: AddBP and AddBlock are idempotent.  A second AddBP with the same
proposal leaves the chain state exactly as after the first call, and
whenever the first call added the proposal the second reports
(added = false, err = nil), i.e. already-exists rather than an error.  A
second AddBlock with the same block returns the chain of the first call
unchanged with (false, nil), whenever the first call returned at all
(did not panic). -/
theorem c5_idempotent_add (E : CEnv) (c cb : Chain) (bp bpb : BlockProposal) (b : Block)
    (s : DexState) (w wb : Nat) (r : Chain × Bool × Option Unit)
    (hb : Chain.addBlock E cb b bpb s wb = some r) :
    (Chain.addBP E (Chain.addBP E c bp w).1 bp w).1 = (Chain.addBP E c bp w).1 ∧
    ((Chain.addBP E c bp w).2.1 = true →
      Chain.addBP E (Chain.addBP E c bp w).1 bp w = ((Chain.addBP E c bp w).1, false, none)) ∧
    Chain.addBlock E r.1 b bpb s wb = some (r.1, false, none) := by
  have hpair : (Chain.addBP E (Chain.addBP E c bp w).1 bp w).1 = (Chain.addBP E c bp w).1 ∧
      ((Chain.addBP E c bp w).2.1 = true →
        Chain.addBP E (Chain.addBP E c bp w).1 bp w = ((Chain.addBP E c bp w).1, false, none)) := by
    rcases addBP_cases E c bp w with ⟨q2, hq2, he⟩ | ⟨hset, hflag⟩ | he
    · constructor
      · simp [he, addBP_of_present E c bp w q2 hq2]
      · intro hadd
        rw [he] at hadd
        simp at hadd
    · have hsec := addBP_of_present E (Chain.addBP E c bp w).1 bp w bp hset
      exact ⟨by rw [hsec], fun _ => hsec⟩
    · constructor
      · simp [he]
      · intro hadd
        rw [he] at hadd
        simp at hadd
  obtain ⟨q, hq⟩ := addBlock_sets_hash E cb b bpb s wb r hb
  exact ⟨hpair.1, hpair.2, addBlock_of_present E r.1 b bpb s wb q hq⟩

theorem c5_idempotent_add_witness :
    Chain.addBlock cEnv3 chain5 blk5 bp5 emptyDex 0 =
      some ((Chain.addBlock cEnv3 chain5 blk5 bp5 emptyDex 0).getD (chain5, false, none)) ∧
    (Chain.addBP cEnv3 (Chain.addBP cEnv3 chain5 bp5 0).1 bp5 0).1 =
      (Chain.addBP cEnv3 chain5 bp5 0).1 ∧
    Chain.addBlock cEnv3
        ((Chain.addBlock cEnv3 chain5 blk5 bp5 emptyDex 0).getD (chain5, false, none)).1
        blk5 bp5 emptyDex 0 =
      some (((Chain.addBlock cEnv3 chain5 blk5 bp5 emptyDex 0).getD (chain5, false, none)).1,
        false, none) := by
  have hsome : Chain.addBlock cEnv3 chain5 blk5 bp5 emptyDex 0 =
      some ((Chain.addBlock cEnv3 chain5 blk5 bp5 emptyDex 0).getD (chain5, false, none)) := by
    have h1 : ∃ q, Chain.addBlock cEnv3 chain5 blk5 bp5 emptyDex 0 = some q := by
      simp [Chain.addBlock, chain5, bp5, blk5, cEnv3, Chain.finalTip, Chain.roundN,
        maxHeight, removeLastBp]
    obtain ⟨q, hq⟩ := h1
    rw [hq]
    rfl
  have key := c5_idempotent_add cEnv3 chain5 chain5 bp5 bp5 blk5 emptyDex 0 0 _ hsome
  exact ⟨hsome, key.1, key.2.2⟩

/-- C3: AddNtShare returns no block while the shares pooled for a proposal
(including the incoming one, whose owner is not yet pooled) stay below the
group threshold; when the threshold-th share arrives it returns the block
rebuilt from the re-applied transition — its StateRoot is the StateHash of
getTransition on the parent block's state — whose NotarizationSig is the
recovered signature verifying against the selected group's public key, and
it clears the stored shares for that proposal. -/
theorem c3_threshold_aggregation (E : CEnv) (c : Chain) (n : NtShare) (groupID : Nat)
    (bp : BlockProposal) (sig : Sig) (st : DexState) (tr : Transition) (gpk : PK)
    (hbp : c.hashToBP n.BP = some bp)
    (hneed : c.bpNeedNotarize n.BP = true)
    (hdist : (c.bpToNtShares n.BP).any (fun s => s.Owner = n.Owner) = false) :
    ((ntSharesAfter c n).length < c.groupThreshold →
      Chain.addNtShare E c n groupID = some (pendingNtChain E c n, none, true, true)) ∧
    (c.groupThreshold ≤ (ntSharesAfter c n).length →
      E.recoverNtSig (ntSharesAfter c n) = some sig →
      c.blockToState bp.PrevBlock = some st →
      getTransition E st bp.Data bp.Round = some (.ok tr) →
      c.groups.get? groupID = some gpk →
      E.verifySig sig gpk (E.encodeBlockNoSig (ntBlock E bp tr)) = true →
      ∃ b : Block,
        Chain.addNtShare E c n groupID =
          some (clearedNtChain E c n, some b, true, true) ∧
        b.StateRoot = E.stateHash tr ∧
        b.NotarizationSig = sig ∧
        E.verifySig b.NotarizationSig gpk (E.encodeBlockNoSig (ntBlock E bp tr)) = true ∧
        (clearedNtChain E c n).bpToNtShares n.BP = []) := by
  constructor
  · intro hlt
    unfold Chain.addNtShare
    rw [hbp]
    simp only [hneed, if_true, hdist, Bool.false_eq_true, if_false]
    rw [if_neg (Nat.not_le.mpr hlt)]
  · intro hth hsig hst htr hg hv
    refine ⟨{ ntBlock E bp tr with NotarizationSig := sig }, ?_, rfl, rfl, hv, ?_⟩
    · unfold Chain.addNtShare
      rw [hbp]
      simp only [hneed, if_true, hdist, Bool.false_eq_true, if_false]
      rw [if_pos hth]
      rw [List.get?_eq_getElem?] at hg
      simp [hsig, hst, htr, hg, hv]
    · simp [clearedNtChain]

theorem c3_threshold_aggregation_witness :
    ∃ b : Block,
      Chain.addNtShare cEnv3 chain3 share3 0 =
        some (clearedNtChain cEnv3 chain3 share3, some b, true, true) ∧
      b.StateRoot = cEnv3.stateHash (DexState.toTransition emptyDex) ∧
      b.NotarizationSig = 7 ∧
      cEnv3.verifySig b.NotarizationSig 9
        (cEnv3.encodeBlockNoSig (ntBlock cEnv3 bp3 (DexState.toTransition emptyDex))) = true ∧
      (clearedNtChain cEnv3 chain3 share3).bpToNtShares share3.BP = [] := by
  have key := c3_threshold_aggregation cEnv3 chain3 share3 0 bp3 7 emptyDex
    (DexState.toTransition emptyDex) 9 rfl rfl rfl
  exact key.2 (by decide) rfl rfl rfl rfl rfl

theorem c6_cex :
    ((syncBlock cEnv6 chain5 12 2).map
        (fun r => (r.2, r.1.hashToBlock (cEnv6.hashBlock blk61)))) =
      some (.error .invalidStateRoot, some blk61) ∧
    chain5.hashToBlock (cEnv6.hashBlock blk61) = none := by
  constructor
  · simp [syncBlock, syncFinish, cEnv6, chain5, blk61, blk62, bp61, bp62,
      Chain.finalizedRound, Chain.genesisHash, Chain.blockToState, Chain.finalTip,
      getTransition, Chain.addBP, Chain.addBlock, findUpd, removeLastBp, maxHeight,
      Chain.roundN]
  · simp [chain5, cEnv6, blk61]

/-- C6: a fetched block whose declared StateRoot differs from the root of
the recomputed transition is rejected with the invalid-state-root error
before any insertion of THAT block, and when no recursive ancestor sync
happens (a round-1 block, whose parent is the genesis block and whose
parent state is in hand) the chain is returned completely unchanged.  (The
unrestricted claim fails: at higher rounds the recursive calls insert the
validated ancestors before the mismatch is detected, so the chain's block
set grows; c6_cex exhibits this.) -/
theorem c6_sync_reject (E : CEnv) (c : Chain) (h : Hash) (b : Block) (bp : BlockProposal)
    (st : DexState) (tr : Transition)
    (hknown : c.hashToBlock h = none)
    (hfr : c.finalizedRound = 0)
    (hreq : E.requestBlock h = some b)
    (hprev : b.PrevBlock = c.genesisHash)
    (hbp : E.requestBP b.BlockProposal = some bp)
    (hst : c.blockToState b.PrevBlock = some st)
    (htr : getTransition E st bp.Data bp.Round = some (.ok tr))
    (hmm : E.stateHash tr ≠ b.StateRoot) :
    syncBlock E c h 1 = some (c, .error .invalidStateRoot) := by
  unfold syncBlock
  simp only [hknown, hfr, hreq]
  rw [dif_neg (by omega)]
  rw [dif_pos trivial]
  rw [if_neg (not_not_intro hprev)]
  unfold syncFinish
  simp only [hbp, hst, htr]
  rw [if_pos hmm]

theorem c6_sync_reject_witness :
    syncBlock cEnv6w chain5 11 1 = some (chain5, .error .invalidStateRoot) :=
  c6_sync_reject cEnv6w chain5 11 blk63 bp61 emptyDex (DexState.toTransition emptyDex)
    rfl rfl rfl rfl rfl rfl rfl (by decide)

end DexSpec
